import Mathlib

/-!
Verification of the frequency-based extractive summarization pipeline of
`nltk_summarizer.py` (class `PDFSummarizer`), via a shallow embedding.

Text is modelled as `List Char`; external collaborators (the NLTK sentence
and word tokenizers, the lowercasing function, the abstractive model, the
dictionary oracle and the word-segmentation oracle) are parameters of the
embedded functions.
-/

/-- A piece of text (a Python `str`), modelled as its list of characters. -/
abbrev Token := List Char

/-! ## Chunker: `split_text` -/

/-- Python `range(0, stop, step)` for a positive `step`:
`0, step, 2*step, ...` while below `stop`; it has `⌈stop/step⌉` elements. -/
def pyRange (stop step : Nat) : List Nat :=
  List.range' 0 ((stop + step - 1) / step) step

/-- Embeds `split_text(text, chunk_size)`:
`[text[i:i + chunk_size] for i in range(0, len(text), chunk_size)]`
(meaningful for `chunk_size > 0`; the slice `text[i:i+cs]` is `drop i` then
`take cs`). -/
def split_text (text : Token) (chunk_size : Nat) : List Token :=
  (pyRange text.length chunk_size).map (fun i => (text.drop i).take chunk_size)

/-- Embeds `split_text` on an arbitrary integer `chunk_size`, with Python's actual
behaviour at non-positive sizes: `range(0, n, 0)` raises `ValueError`, and
`range(0, n, step)` for `step < 0` is empty (so the comprehension silently
returns `[]`).  There is no validation in the source. -/
def split_text_checked (text : Token) (chunk_size : Int) : Except String (List Token) :=
  if chunk_size = 0 then
    Except.error "ValueError: range() arg 3 must not be zero"
  else if chunk_size < 0 then
    Except.ok []
  else
    Except.ok (split_text text chunk_size.toNat)

/-! ## Concurrent engine: `process_concurrently`

The thread pool submits `num_threads` jobs, job `i` over
`islice(tokens, i*CHUNK_SIZE, (i+1)*CHUNK_SIZE)`, and collects the results
in submission order.  With a pure operation this is the sequential
concatenation below; `chunkSize` stands for the instance's `CHUNK_SIZE`
at call time. -/

/-- Embeds `process_concurrently(tokens, num_threads, operation)`. -/
def process_concurrently (chunkSize : Nat) (tokens : List α) (num_threads : Nat)
    (operation : List α → List β) : List β :=
  ((List.range num_threads).map
    (fun i => operation ((tokens.drop (i * chunkSize)).take chunkSize))).flatten

/-! ## Tokenizers and filters -/

/-- Embeds `tokenize_sentences(chunks)`, with the NLTK `sent_tokenize` collaborator
as a parameter. -/
def tokenize_sentences (sent_tokenize : Token → List Token) (chunks : List Token) :
    List Token :=
  chunks.flatMap sent_tokenize

/-- Embeds `tokenize_words(chunks)`, with the NLTK `word_tokenize` collaborator as a
parameter. -/
def tokenize_words (word_tokenize : Token → List Token) (chunks : List Token) :
    List Token :=
  chunks.flatMap word_tokenize

/-- The four banned substrings of `filter_sentences`. -/
def bannedWords : List Token :=
  ["Figure".toList, "Fig".toList, "Tab".toList, "Table".toList]

/-- Embeds `filter_sentences(chunks)`: keep tokens of length `> 1` containing none of
the banned substrings (Python `word in token` is substring containment). -/
def filter_sentences (chunks : List Token) : List Token :=
  chunks.filter (fun token =>
    decide (token.length > 1) &&
      !(bannedWords.any (fun word => decide (word <:+: token))))

/-- Embeds `filter_words(chunks)`: drop stop words and length-`≤ 1` words. -/
def filter_words (stop_words : List Token) (chunks : List Token) : List Token :=
  chunks.filter (fun word =>
    !(stop_words.any (fun s => decide (s = word))) && decide (word.length > 1))

/-! ## Frequency scorer

`FreqDist(filtered_words)` is a counter built by tallying the words one by
one; `freq(w)` divides the tally by the total sample count, returning `0`
when the distribution is empty (NLTK's `FreqDist.freq`). -/

/-- Add one occurrence of `w` to a counter table. -/
def tallyWord (w : Token) : List (Token × Nat) → List (Token × Nat)
  | [] => [(w, 1)]
  | (x, n) :: rest =>
    if x = w then (x, n + 1) :: rest else (x, n) :: tallyWord w rest

/-- Embeds `FreqDist(ws)`: tally every sample of `ws` in order. -/
def freqDistCounts (ws : List Token) : List (Token × Nat) :=
  ws.foldl (fun acc w => tallyWord w acc) []

/-- Look a word's tally up in a counter table (`0` when absent). -/
def lookupCount (tbl : List (Token × Nat)) (w : Token) : Nat :=
  ((tbl.find? (fun p => decide (p.1 = w))).map Prod.snd).getD 0

/-- Embeds `FreqDist(ws).freq(w)`: relative frequency, `0` on an empty sample. -/
def freqDistFreq (ws : List Token) (w : Token) : ℚ :=
  if ws.length = 0 then 0
  else (lookupCount (freqDistCounts ws) w : ℚ) / (ws.length : ℚ)

/-- The score of one sentence:
`sum([frequency_table.freq(word) for word in word_tokenize(sentence.lower())
if word in filtered_words])`. -/
def sentence_score (word_tokenize : Token → List Token) (lower : Token → Token)
    (filtered_words : List Token) (sentence : Token) : ℚ :=
  (((word_tokenize (lower sentence)).filter
      (fun w => decide (w ∈ filtered_words))).map
    (fun w => freqDistFreq filtered_words w)).sum

/-- Embeds the `OrderedDict` insertion `d[k] = v`: update in place when the key exists,
else append at the end. -/
def odInsert (k : Token) (v : ℚ) (d : List (Token × ℚ)) : List (Token × ℚ) :=
  if d.any (fun p => decide (p.1 = k)) then
    d.map (fun p => if p.1 = k then (k, v) else p)
  else d ++ [(k, v)]

/-- Embeds the `OrderedDict` lookup. -/
def odLookup (d : List (Token × ℚ)) (k : Token) : Option ℚ :=
  (d.find? (fun p => decide (p.1 = k))).map Prod.snd

/-- The `scores` mapping built by `summarize()`: one `OrderedDict` insertion
per filtered sentence, in order. -/
def buildScores (word_tokenize : Token → List Token) (lower : Token → Token)
    (filtered_words filtered_sentences : List Token) : List (Token × ℚ) :=
  filtered_sentences.foldl
    (fun d s => odInsert s (sentence_score word_tokenize lower filtered_words s) d) []

/-! ## Selector

`sorted(scores, key=scores.get, reverse=True)` is a stable descending sort
of the keys by score: an earlier key precedes a later key of equal score.
The reassembled text is
`"".join([s for s in scores.keys() if s in sorted(...)[:NUM_SENTENCES]])`. -/

/-- Insert an entry into a score-descending list, after all entries of
greater-or-equal score (the stability of Python's `sorted`). -/
def insertByScoreDesc (x : Token × ℚ) : List (Token × ℚ) → List (Token × ℚ)
  | [] => [x]
  | y :: ys => if y.2 < x.2 then x :: y :: ys else y :: insertByScoreDesc x ys

/-- Stable descending sort of the score entries. -/
def sortByScoreDesc (l : List (Token × ℚ)) : List (Token × ℚ) :=
  l.foldl (fun acc x => insertByScoreDesc x acc) []

/-- Embeds `sorted(scores, key=scores.get, reverse=True)[:n]`: the keys of the top
`n` entries. -/
def selected_keys (scores : List (Token × ℚ)) (n : Nat) : List Token :=
  ((sortByScoreDesc scores).take n).map Prod.fst

/-- The string handed to the condensing stage: iterate `scores.keys()` in
insertion order, keep the keys that occur among the top `n`, join with `""`. -/
def select_join (scores : List (Token × ℚ)) (n : Nat) : Token :=
  ((scores.map Prod.fst).filter
    (fun s => decide (s ∈ selected_keys scores n))).flatten

/-! ## Lexical corrector: `_correct_summary`

The dictionary oracle `eng_dict.check` and the segmentation oracle
`wordninja.split` are parameters (`check`, `seg`), as is `word_tokenize`. -/

/-- Python's `\s` character class (`[ \t\n\r\f\v]` for ASCII text). -/
def isPySpace (c : Char) : Bool :=
  c = ' ' || c = '\t' || c = '\n' || c = '\r' || c = '\x0b' || c = '\x0c'

/-- Embeds `re.sub("\s+", " ", s)`: collapse every maximal whitespace run to one
space. -/
def collapseWS : List Char → List Char
  | [] => []
  | [c] => if isPySpace c then [' '] else [c]
  | c :: d :: rest =>
    if isPySpace c && isPySpace d then collapseWS (d :: rest)
    else (if isPySpace c then ' ' else c) :: collapseWS (d :: rest)

/-- Python `str.strip()`: drop whitespace from both ends. -/
def pyStrip (s : List Char) : List Char :=
  ((s.dropWhile isPySpace).reverse.dropWhile isPySpace).reverse

/-- Embeds `re.sub("\s+", " ", s).strip()`. -/
def normalizeWS (s : List Char) : List Char :=
  pyStrip (collapseWS s)

/-- Embeds `" ".join(tokens)`. -/
def join_spaces (ts : List Token) : Token :=
  List.intercalate [' '] ts

/-- The per-token decision of the corrector's loop body:
`len(word) > 5 and not eng_dict.check(word) and
all(eng_dict.check(w) for w in wordninja.split(word))` selects the split,
otherwise the word is kept. -/
def correct_token (check : Token → Bool) (seg : Token → List Token)
    (word : Token) : List Token :=
  let split_words := seg word
  if word.length > 5 ∧ check word = false ∧ split_words.all check then
    split_words
  else [word]

/-- The corrector's loop: start from `clean_summary = []`, then `extend` with
the split or `append` the word, token by token. -/
def correct_loop (check : Token → Bool) (seg : Token → List Token)
    (words : List Token) : List Token :=
  words.foldl
    (fun clean_summary word =>
      let split_words := seg word
      if word.length > 5 ∧ check word = false ∧ split_words.all check then
        clean_summary ++ split_words
      else clean_summary ++ [word]) []

/-- Embeds `_correct_summary`: tokenize the summary, run the loop, join with spaces
and normalize whitespace. -/
def correct_summary (word_tokenize : Token → List Token) (check : Token → Bool)
    (seg : Token → List Token) (summary : Token) : Token :=
  normalizeWS (join_spaces (correct_loop check seg (word_tokenize summary)))

/-! ## The corrector with a fallible dictionary oracle

The source has no exception handler, so a failing oracle call propagates
out of the loop.  Evaluation order follows the source: `wordninja.split`
first, then (short-circuit) `len > 5`, `eng_dict.check(word)`, and
`all(eng_dict.check(w) for w in split_words)`. -/

/-- Short-circuit `all(check(w) for w in ws)` over a fallible oracle. -/
def allCheckE (check : Token → Except Unit Bool) : List Token → Except Unit Bool
  | [] => Except.ok true
  | w :: ws =>
    match check w with
    | Except.error e => Except.error e
    | Except.ok b => if b then allCheckE check ws else Except.ok false

/-- One iteration of the corrector's loop with fallible oracles. -/
def correct_token_fallible (check : Token → Except Unit Bool)
    (seg : Token → Except Unit (List Token)) (word : Token) :
    Except Unit (List Token) :=
  match seg word with
  | Except.error e => Except.error e
  | Except.ok split_words =>
    if word.length > 5 then
      match check word with
      | Except.error e => Except.error e
      | Except.ok c =>
        if c then Except.ok [word]
        else
          match allCheckE check split_words with
          | Except.error e => Except.error e
          | Except.ok a => if a then Except.ok split_words else Except.ok [word]
    else Except.ok [word]

/-- The corrector's loop with fallible oracles: the first failing token
aborts the whole pass (nothing in the source catches it). -/
def correct_loop_fallible (check : Token → Except Unit Bool)
    (seg : Token → Except Unit (List Token)) :
    List Token → Except Unit (List Token)
  | [] => Except.ok []
  | w :: ws =>
    match correct_token_fallible check seg w with
    | Except.error e => Except.error e
    | Except.ok c =>
      match correct_loop_fallible check seg ws with
      | Except.error e => Except.error e
      | Except.ok rest => Except.ok (c ++ rest)

/-! ## The `summarize()` method as a state transformer

`summarize()` reads and writes instance attributes; we model the attributes
it touches as a record and the method as a function on that record.  The
attributes written are `sentences`, `words`, `filtered_sentences`,
`filtered_words`, `summary` — and `CHUNK_SIZE`, which line 130 of the source
sets to `1024` on the instance before the condensing split. -/

/-- The external collaborators of the pipeline. -/
structure Externals where
  sent_tokenize : Token → List Token
  word_tokenize : Token → List Token
  lower : Token → Token
  abstract : Token → Nat → Nat → Token
  check : Token → Bool
  seg : Token → List Token

/-- The instance attributes `summarize()` touches.  A fresh instance has
`chunkSize = 4096` (the class constant) and `chunks` split at load time. -/
structure SummarizerState where
  chunkSize : Nat
  maxLength : Nat
  minLength : Nat
  numSentences : Nat
  stopWords : List Token
  chunks : List Token
  sentences : List Token
  words : List Token
  filteredSentences : List Token
  filteredWords : List Token
  summary : Token

/-- One `summarize()` call: the four concurrent stages (all still under the
incoming `chunkSize`), the scoring, then `self.CHUNK_SIZE = 1024`, the
selection join re-split at `1024`, the per-chunk abstractive pass
concatenated in submission order, and the correction pass. -/
def summarizeStep (ext : Externals) (st : SummarizerState) : SummarizerState :=
  let sentences := process_concurrently st.chunkSize st.chunks 4
    (tokenize_sentences ext.sent_tokenize)
  let words := process_concurrently st.chunkSize sentences 4
    (tokenize_words ext.word_tokenize)
  let filteredSentences := process_concurrently st.chunkSize sentences 4
    filter_sentences
  let filteredWords := process_concurrently st.chunkSize words 4
    (filter_words st.stopWords)
  let scores := buildScores ext.word_tokenize ext.lower filteredWords
    filteredSentences
  let newChunkSize := 1024
  let raw_summary_chunks := split_text (select_join scores st.numSentences)
    newChunkSize
  let condensed := (raw_summary_chunks.map
    (fun c => ext.abstract c st.maxLength st.minLength)).flatten
  let summary := correct_summary ext.word_tokenize ext.check ext.seg condensed
  { st with
    chunkSize := newChunkSize
    sentences := sentences
    words := words
    filteredSentences := filteredSentences
    filteredWords := filteredWords
    summary := summary }

/-! ## Chunker lemmas -/

lemma pyRange_zero (step : Nat) : pyRange 0 step = [] := by
  rcases Nat.eq_zero_or_pos step with h | h
  · subst h; rfl
  · unfold pyRange
    rw [Nat.zero_add, Nat.div_eq_of_lt (by omega)]
    rfl

lemma split_text_eq_nil (cs : Nat) : split_text [] cs = [] := by
  unfold split_text
  rw [List.length_nil, pyRange_zero]
  rfl

lemma split_text_eq_cons (text : Token) (cs : Nat) (hcs : 0 < cs)
    (ht : text ≠ []) :
    split_text text cs = text.take cs :: split_text (text.drop cs) cs := by
  have hn : 0 < text.length := List.length_pos.mpr ht
  have hk : (text.length + cs - 1) / cs = (text.length - 1) / cs + 1 := by
    have h1 : text.length + cs - 1 = (text.length - 1) + cs := by omega
    rw [h1, Nat.add_div_right _ hcs]
  have hm : ((text.drop cs).length + cs - 1) / cs = (text.length - 1) / cs := by
    rw [List.length_drop]
    rcases le_or_lt cs text.length with hle | hlt
    · congr 1
      omega
    · have h2 : text.length - cs = 0 := by omega
      rw [h2, Nat.zero_add, Nat.div_eq_of_lt (by omega),
        Nat.div_eq_of_lt (by omega)]
  unfold split_text pyRange
  rw [hk, hm, List.range'_succ, List.map_cons, List.drop_zero, Nat.zero_add]
  congr 1
  have hshift := List.map_add_range' cs 0 ((text.length - 1) / cs) cs
  rw [Nat.add_zero] at hshift
  rw [← hshift, List.map_map]
  apply List.map_congr_left
  intro i _
  simp only [Function.comp_apply]
  rw [List.drop_drop]

lemma split_text_flatten (text : Token) (cs : Nat) (h : 0 < cs) :
    (split_text text cs).flatten = text := by
  by_cases ht : text = []
  · subst ht
    rw [split_text_eq_nil]
    rfl
  · rw [split_text_eq_cons text cs h ht, List.flatten_cons,
      split_text_flatten (text.drop cs) cs h, List.take_append_drop]
termination_by text.length
decreasing_by
  have : 0 < text.length := List.length_pos.mpr ht
  rw [List.length_drop]
  omega

/-- C4: for every string `text` and every `chunk_size > 0`, `split_text`
returns exactly `⌈len(text)/chunk_size⌉` chunks, each of length at most
`chunk_size`, whose in-order concatenation equals `text` exactly. -/
theorem c4_split_text_chunks (text : Token) (cs : Nat) (h : 0 < cs) :
    (split_text text cs).length = (text.length + cs - 1) / cs ∧
    (∀ c ∈ split_text text cs, c.length ≤ cs) ∧
    (split_text text cs).flatten = text := by
  refine ⟨?_, ?_, split_text_flatten text cs h⟩
  · unfold split_text pyRange
    rw [List.length_map, List.length_range']
  · intro c hc
    unfold split_text at hc
    rcases List.mem_map.mp hc with ⟨i, _, rfl⟩
    rw [List.length_take]
    exact min_le_left _ _

/-- C4 witness: the chunks of `"abcdefgh"` at size `3` concatenate back to
the string (and are `["abc", "def", "gh"]`). -/
theorem c4_witness :
    0 < 3 ∧ (split_text ("abcdefgh".toList) 3).flatten = "abcdefgh".toList :=
  ⟨by decide, (c4_split_text_chunks ("abcdefgh".toList) 3 (by decide)).2.2⟩

/-- C6 counterexample: at `chunk_size = -1` the split does not fail at all —
`range(0, len(text), -1)` is empty, so the call silently returns the empty
chunk list instead of raising any error. -/
theorem c6_counterexample :
    split_text_checked ("ab".toList) (-1) = Except.ok [] := by
  rfl

/-- C6 (amended): `split_text` performs no validation and never raises an
`InvalidConfig`: `chunk_size = 0` fails only with the built-in `ValueError`
raised by `range`, and every `chunk_size < 0` succeeds with the empty chunk
list. -/
theorem c6_split_text_no_validation (text : Token) :
    split_text_checked text 0 =
      Except.error "ValueError: range() arg 3 must not be zero" ∧
    ∀ cs : Int, cs < 0 → split_text_checked text cs = Except.ok [] := by
  constructor
  · rfl
  · intro cs hneg
    unfold split_text_checked
    rw [if_neg (by omega), if_pos hneg]

/-- C6 witness: the amended statement at `text = "abc"`, `chunk_size = -5`. -/
theorem c6_witness :
    (-5 : Int) < 0 ∧ split_text_checked ("abc".toList) (-5) = Except.ok [] :=
  ⟨by decide, (c6_split_text_no_validation ("abc".toList)).2 (-5) (by decide)⟩

/-! ## Concurrent engine lemmas -/

lemma slices_flatten_eq_take (cs : Nat) (tokens : List α) :
    ∀ W : Nat,
      ((List.range W).map (fun i => (tokens.drop (i * cs)).take cs)).flatten =
        tokens.take (W * cs)
  | 0 => by simp
  | W + 1 => by
    rw [List.range_succ, List.map_append, List.flatten_append,
      slices_flatten_eq_take cs tokens W]
    simp only [List.map_cons, List.map_nil, List.flatten_cons,
      List.flatten_nil, List.append_nil]
    rw [← List.take_add, Nat.succ_mul]

/-- C2: for a pure operation, `process_concurrently` returns the
concatenation, in worker index order `0..W-1`, of the operation applied to
the slices `tokens[i*CHUNK_SIZE:(i+1)*CHUNK_SIZE]`; elements at positions
`≥ W*CHUNK_SIZE` are never processed (truncating there changes nothing, and
when each worker returns its own slice the overall result is exactly
`tokens[:W*CHUNK_SIZE]`). -/
theorem c2_process_concurrently_slices {α β : Type} (cs : Nat)
    (tokens : List α) (W : Nat) (f : List α → List β) (hW : 0 < W) :
    process_concurrently cs tokens W f =
      ((List.range W).map
        (fun i => f ((tokens.drop (i * cs)).take cs))).flatten ∧
    process_concurrently cs tokens W f =
      process_concurrently cs (tokens.take (W * cs)) W f ∧
    process_concurrently cs tokens W (fun l => l) = tokens.take (W * cs) := by
  refine ⟨rfl, ?_, ?_⟩
  · unfold process_concurrently
    congr 1
    apply List.map_congr_left
    intro i hi
    have hiW : i < W := List.mem_range.mp hi
    congr 1
    rw [List.drop_take, List.take_take]
    congr 1
    have h1 : (i + 1) * cs ≤ W * cs :=
      Nat.mul_le_mul_right cs (Nat.succ_le_of_lt hiW)
    rw [Nat.succ_mul] at h1
    omega
  · exact slices_flatten_eq_take cs tokens W

/-- C2 witness: six tokens, two workers of slice width `2`: the identity
operation yields the first four tokens only. -/
theorem c2_witness :
    0 < 2 ∧
      process_concurrently 2 [10, 20, 30, 40, 50, 60] 2
          (fun l : List Nat => l) =
        [10, 20, 30, 40, 50, 60].take (2 * 2) :=
  ⟨by decide,
    (c2_process_concurrently_slices 2 [10, 20, 30, 40, 50, 60] 2
      (fun l => l) (by decide)).2.2⟩

/-! ## Sentence filter -/

lemma filter_sentences_pred_eq (t : Token) :
    (decide (t.length > 1) &&
        !(bannedWords.any (fun word => decide (word <:+: t)))) =
      decide (1 < t.length ∧ ¬ "Figure".toList <:+: t ∧
        ¬ "Fig".toList <:+: t ∧ ¬ "Tab".toList <:+: t ∧
        ¬ "Table".toList <:+: t) := by
  by_cases h1 : 1 < t.length <;>
    by_cases h2 : "Figure".toList <:+: t <;>
    by_cases h3 : "Fig".toList <:+: t <;>
    by_cases h4 : "Tab".toList <:+: t <;>
    by_cases h5 : "Table".toList <:+: t <;>
    simp [bannedWords, h1, h2, h3, h4, h5]

/-- C10: `filter_sentences` returns exactly the input elements, in their
original relative order (a sublist of the input), whose length exceeds `1` and which
contain none of the substrings `"Figure"`, `"Fig"`, `"Tab"`, `"Table"`. -/
theorem c10_filter_sentences_spec (chunks : List Token) :
    filter_sentences chunks =
      chunks.filter (fun t =>
        decide (1 < t.length ∧ ¬ "Figure".toList <:+: t ∧
          ¬ "Fig".toList <:+: t ∧ ¬ "Tab".toList <:+: t ∧
          ¬ "Table".toList <:+: t)) ∧
    (filter_sentences chunks).Sublist chunks ∧
    ∀ t, t ∈ filter_sentences chunks ↔
      t ∈ chunks ∧ 1 < t.length ∧ ¬ "Figure".toList <:+: t ∧
        ¬ "Fig".toList <:+: t ∧ ¬ "Tab".toList <:+: t ∧
        ¬ "Table".toList <:+: t := by
  have heq : filter_sentences chunks =
      chunks.filter (fun t =>
        decide (1 < t.length ∧ ¬ "Figure".toList <:+: t ∧
          ¬ "Fig".toList <:+: t ∧ ¬ "Tab".toList <:+: t ∧
          ¬ "Table".toList <:+: t)) :=
    List.filter_congr (fun t _ => filter_sentences_pred_eq t)
  refine ⟨heq, ?_, ?_⟩
  · rw [heq]
    exact List.filter_sublist chunks
  · intro t
    rw [heq, List.mem_filter, decide_eq_true_eq]

/-! ## Frequency scorer lemmas -/

lemma lookupCount_cons (y : Token) (n : Nat) (rest : List (Token × Nat))
    (x : Token) :
    lookupCount ((y, n) :: rest) x =
      if y = x then n else lookupCount rest x := by
  unfold lookupCount
  by_cases h : y = x <;> simp [List.find?, h]

lemma lookupCount_tally (w x : Token) (acc : List (Token × Nat)) :
    lookupCount (tallyWord w acc) x =
      lookupCount acc x + (if w = x then 1 else 0) := by
  induction acc with
  | nil =>
    unfold tallyWord lookupCount
    by_cases h : w = x <;> simp [List.find?, h]
  | cons p rest ih =>
    obtain ⟨y, n⟩ := p
    unfold tallyWord
    by_cases hyw : y = w
    · rw [if_pos hyw, lookupCount_cons, lookupCount_cons]
      by_cases hyx : y = x
      · rw [if_pos hyx, if_pos hyx, if_pos (hyw.symm.trans hyx)]
      · rw [if_neg hyx, if_neg hyx,
          if_neg (fun h => hyx (hyw.trans h)), Nat.add_zero]
    · rw [if_neg hyw, lookupCount_cons, lookupCount_cons]
      by_cases hyx : y = x
      · rw [if_pos hyx, if_pos hyx,
          if_neg (fun h => hyw (hyx.trans h.symm)), Nat.add_zero]
      · rw [if_neg hyx, if_neg hyx, ih]

lemma lookupCount_foldl_tally (ws : List Token) (x : Token) :
    ∀ acc : List (Token × Nat),
      lookupCount (ws.foldl (fun acc w => tallyWord w acc) acc) x =
        lookupCount acc x + ws.count x := by
  induction ws with
  | nil => intro acc; simp
  | cons w ws ih =>
    intro acc
    rw [List.foldl_cons, ih (tallyWord w acc), lookupCount_tally,
      List.count_cons]
    by_cases h : w = x
    · rw [if_pos h, if_pos (by simp [h])]
      omega
    · rw [if_neg h, if_neg (by simpa using h)]
      omega

lemma lookupCount_freqDistCounts (ws : List Token) (x : Token) :
    lookupCount (freqDistCounts ws) x = ws.count x := by
  unfold freqDistCounts
  rw [lookupCount_foldl_tally]
  have h0 : lookupCount [] x = 0 := rfl
  rw [h0, Nat.zero_add]

lemma odInsert_snd (f : Token → ℚ) (k : Token) (d : List (Token × ℚ))
    (hd : ∀ p ∈ d, p.2 = f p.1) :
    ∀ p ∈ odInsert k (f k) d, p.2 = f p.1 := by
  intro p hp
  unfold odInsert at hp
  split at hp
  · rcases List.mem_map.mp hp with ⟨q, hq, rfl⟩
    by_cases h : q.1 = k
    · simp [h]
    · simp only [if_neg h]
      exact hd q hq
  · rcases List.mem_append.mp hp with h | h
    · exact hd p h
    · rw [List.mem_singleton.mp h]

lemma mem_keys_odInsert_self (k : Token) (v : ℚ) (d : List (Token × ℚ)) :
    k ∈ (odInsert k v d).map Prod.fst := by
  unfold odInsert
  split
  · next h =>
    rcases List.any_eq_true.mp h with ⟨q, hq, hq1⟩
    rw [decide_eq_true_eq] at hq1
    refine List.mem_map.mpr ⟨if q.1 = k then (k, v) else q, List.mem_map.mpr ⟨q, hq, rfl⟩, ?_⟩
    rw [if_pos hq1]
  · rw [List.map_append]
    exact List.mem_append_right _ (List.mem_singleton.mpr rfl)

lemma mem_keys_odInsert_of_mem (k : Token) (v : ℚ) (d : List (Token × ℚ))
    (x : Token) (hx : x ∈ d.map Prod.fst) :
    x ∈ (odInsert k v d).map Prod.fst := by
  unfold odInsert
  rcases List.mem_map.mp hx with ⟨q, hq, rfl⟩
  split
  · by_cases h : q.1 = k
    · refine List.mem_map.mpr ⟨if q.1 = k then (k, v) else q,
        List.mem_map.mpr ⟨q, hq, rfl⟩, ?_⟩
      rw [if_pos h, h]
    · refine List.mem_map.mpr ⟨if q.1 = k then (k, v) else q,
        List.mem_map.mpr ⟨q, hq, rfl⟩, ?_⟩
      rw [if_neg h]
  · rw [List.map_append]
    exact List.mem_append_left _ (List.mem_map.mpr ⟨q, hq, rfl⟩)

lemma odLookup_eq_of (f : Token → ℚ) (d : List (Token × ℚ))
    (hd : ∀ p ∈ d, p.2 = f p.1) (k : Token)
    (hk : k ∈ d.map Prod.fst) : odLookup d k = some (f k) := by
  induction d with
  | nil => simp at hk
  | cons p d ih =>
    by_cases h : p.1 = k
    · unfold odLookup
      rw [List.find?_cons_of_pos _ (by simp [h])]
      simp only [Option.map_some']
      rw [hd p (List.mem_cons_self p d), h]
    · unfold odLookup
      rw [List.find?_cons_of_neg _ (by simp [h])]
      have hk' : k ∈ d.map Prod.fst := by
        rcases List.mem_map.mp hk with ⟨q, hq, rfl⟩
        rcases List.mem_cons.mp hq with rfl | hq'
        · exact absurd rfl h
        · exact List.mem_map.mpr ⟨q, hq', rfl⟩
      exact ih (fun q hq => hd q (List.mem_cons_of_mem p hq)) hk'

lemma buildScores_inv (word_tokenize : Token → List Token)
    (lower : Token → Token) (fw fs : List Token) :
    (∀ p ∈ buildScores word_tokenize lower fw fs,
      p.2 = sentence_score word_tokenize lower fw p.1) ∧
    (∀ s ∈ fs, s ∈ (buildScores word_tokenize lower fw fs).map Prod.fst) := by
  have main : ∀ (l : List Token) (acc : List (Token × ℚ)),
      (∀ p ∈ acc, p.2 = sentence_score word_tokenize lower fw p.1) →
      (∀ p ∈ l.foldl
          (fun d s => odInsert s (sentence_score word_tokenize lower fw s) d)
          acc,
        p.2 = sentence_score word_tokenize lower fw p.1) ∧
      (∀ s, s ∈ l ∨ s ∈ acc.map Prod.fst →
        s ∈ (l.foldl
          (fun d s => odInsert s (sentence_score word_tokenize lower fw s) d)
          acc).map Prod.fst) := by
    intro l
    induction l with
    | nil =>
      intro acc hacc
      refine ⟨hacc, ?_⟩
      intro s hs
      rcases hs with hs | hs
      · simp at hs
      · exact hs
    | cons s l ih =>
      intro acc hacc
      rw [List.foldl_cons]
      have hacc' := odInsert_snd (sentence_score word_tokenize lower fw) s acc hacc
      refine ⟨(ih _ hacc').1, ?_⟩
      intro x hx
      rcases hx with hx | hx
      · rcases List.mem_cons.mp hx with rfl | hx'
        · exact (ih _ hacc').2 x (Or.inr (mem_keys_odInsert_self x _ acc))
        · exact (ih _ hacc').2 x (Or.inl hx')
      · exact (ih _ hacc').2 x
          (Or.inr (mem_keys_odInsert_of_mem s _ acc x hx))
  have h := main fs [] (by intro p hp; simp at hp)
  exact ⟨h.1, fun s hs => h.2 s (Or.inl hs)⟩

/-- C3: the frequency table assigns to each word `w` the value
`count(w in filtered_words) / len(filtered_words)`, and every sentence of
`filtered_sentences` is assigned (in the `scores` mapping) the sum of
`frequency(word)` over the tokens of the lowercased sentence that are
members of the raw, non-lowercased `filtered_words` list. -/
theorem c3_frequency_and_scores (word_tokenize : Token → List Token)
    (lower : Token → Token) (fw fs : List Token) (h : 0 < fw.length) :
    (∀ w, freqDistFreq fw w = (fw.count w : ℚ) / (fw.length : ℚ)) ∧
    ∀ s ∈ fs, odLookup (buildScores word_tokenize lower fw fs) s =
      some ((((word_tokenize (lower s)).filter
          (fun w => decide (w ∈ fw))).map
        (fun w => (fw.count w : ℚ) / (fw.length : ℚ))).sum) := by
  have hfreq : ∀ w, freqDistFreq fw w = (fw.count w : ℚ) / (fw.length : ℚ) := by
    intro w
    unfold freqDistFreq
    rw [if_neg (by omega), lookupCount_freqDistCounts]
  refine ⟨hfreq, ?_⟩
  intro s hs
  have hinv := buildScores_inv word_tokenize lower fw fs
  rw [odLookup_eq_of _ _ hinv.1 s (hinv.2 s hs)]
  unfold sentence_score
  congr 1
  congr 1
  apply List.map_congr_left
  intro w _
  exact hfreq w

/-- C3 witness: the spec's worked example — over the filtered words
`["the", "the", "fox"]` the frequency of `"the"` is `2/3`. -/
theorem c3_witness :
    0 < (["the".toList, "the".toList, "fox".toList] : List Token).length ∧
      freqDistFreq ["the".toList, "the".toList, "fox".toList] ("the".toList) =
        2 / 3 := by
  have h := (c3_frequency_and_scores (fun _ => []) (fun t => t)
    ["the".toList, "the".toList, "fox".toList] [] (by decide)).1 ("the".toList)
  refine ⟨by decide, ?_⟩
  rw [h, show List.count ("the".toList)
    ["the".toList, "the".toList, "fox".toList] = 2 from by decide]
  norm_num

/-! ## Corrector lemmas -/

lemma correct_loop_aux (check : Token → Bool) (seg : Token → List Token) :
    ∀ (ws : List Token) (acc : List Token),
      ws.foldl
        (fun clean_summary word =>
          let split_words := seg word
          if word.length > 5 ∧ check word = false ∧ split_words.all check then
            clean_summary ++ split_words
          else clean_summary ++ [word]) acc =
      acc ++ ws.flatMap (correct_token check seg) := by
  intro ws
  induction ws with
  | nil => intro acc; simp
  | cons w ws ih =>
    intro acc
    rw [List.foldl_cons, List.flatMap_cons]
    by_cases h : w.length > 5 ∧ check w = false ∧ (seg w).all check
    · simp only [if_pos h]
      rw [ih, List.append_assoc]
      congr 2
      unfold correct_token
      rw [if_pos h]
    · simp only [if_neg h]
      rw [ih, List.append_assoc]
      congr 2
      unfold correct_token
      rw [if_neg h]

lemma correct_loop_eq_flatMap (check : Token → Bool) (seg : Token → List Token)
    (ws : List Token) :
    correct_loop check seg ws = ws.flatMap (correct_token check seg) := by
  unfold correct_loop
  rw [correct_loop_aux]
  rfl

lemma correct_token_fixes (check : Token → Bool) (seg : Token → List Token)
    (w : Token) :
    ∀ w' ∈ correct_token check seg w, correct_token check seg w' = [w'] := by
  intro w' hw'
  by_cases h : 5 < w.length ∧ check w = false ∧ (seg w).all check = true
  · have hrepl : correct_token check seg w = seg w := by
      unfold correct_token
      rw [if_pos h]
    rw [hrepl] at hw'
    have hcheck : check w' = true := List.all_eq_true.mp h.2.2 w' hw'
    unfold correct_token
    rw [if_neg (by simp [hcheck])]
  · have hkeep : correct_token check seg w = [w] := by
      unfold correct_token
      rw [if_neg h]
    rw [hkeep] at hw'
    rw [List.mem_singleton.mp hw']
    exact hkeep

lemma flatMap_eq_self_of_fixes (f : Token → List Token) :
    ∀ l : List Token, (∀ x ∈ l, f x = [x]) → l.flatMap f = l := by
  intro l
  induction l with
  | nil => intro _; rfl
  | cons x l ih =>
    intro h
    rw [List.flatMap_cons, h x (List.mem_cons_self x l),
      ih (fun y hy => h y (List.mem_cons_of_mem x hy))]
    rfl

lemma correct_loop_idem (check : Token → Bool) (seg : Token → List Token)
    (ws : List Token) :
    correct_loop check seg (correct_loop check seg ws) =
      correct_loop check seg ws := by
  rw [correct_loop_eq_flatMap, correct_loop_eq_flatMap]
  induction ws with
  | nil => rfl
  | cons w ws ih =>
    rw [List.flatMap_cons, List.flatMap_append, ih,
      flatMap_eq_self_of_fixes _ _ (correct_token_fixes check seg w)]

/-- C5: a token of the condensed summary is replaced by its segmentation if
and only if its length exceeds `5`, it is not itself a recognized word, and
every segment is recognized; otherwise it is kept — and a token of length
`≤ 5` is never split, regardless of dictionary status. -/
theorem c5_corrector_rule (word_tokenize : Token → List Token)
    (check : Token → Bool) (seg : Token → List Token) (summary : Token) :
    correct_summary word_tokenize check seg summary =
      normalizeWS (join_spaces
        ((word_tokenize summary).flatMap (correct_token check seg))) ∧
    (∀ w, (correct_token check seg w = seg w ∧
          (5 < w.length ∧ check w = false ∧ (seg w).all check = true)) ∨
        (correct_token check seg w = [w] ∧
          ¬(5 < w.length ∧ check w = false ∧ (seg w).all check = true))) ∧
    (∀ w, w.length ≤ 5 → correct_token check seg w = [w]) := by
  refine ⟨?_, ?_, ?_⟩
  · unfold correct_summary
    rw [correct_loop_eq_flatMap]
  · intro w
    by_cases h : 5 < w.length ∧ check w = false ∧ (seg w).all check = true
    · left
      refine ⟨?_, h⟩
      unfold correct_token
      rw [if_pos h]
    · right
      refine ⟨?_, h⟩
      unfold correct_token
      rw [if_neg h]
  · intro w hw
    unfold correct_token
    rw [if_neg (by omega)]

/-- A concrete dictionary oracle for the witnesses: exactly `"quick"` and
`"brown"` are recognized words. -/
def exampleCheck (w : Token) : Bool :=
  decide (w = "quick".toList ∨ w = "brown".toList)

/-- A concrete segmentation oracle for the witnesses: `"quickbrown"`
segments into `["quick", "brown"]`, anything else into itself. -/
def exampleSeg (w : Token) : List Token :=
  if w = "quickbrown".toList then ["quick".toList, "brown".toList] else [w]

/-- C5 witness: the spec's example token `"dog"` (length `3`, unrecognized)
is never split. -/
theorem c5_witness :
    ("dog".toList : Token).length ≤ 5 ∧
      correct_token exampleCheck exampleSeg ("dog".toList) = ["dog".toList] :=
  ⟨by decide,
    (c5_corrector_rule (fun _ => []) exampleCheck exampleSeg []).2.2
      ("dog".toList) (by decide)⟩

/-- C8: the lexical corrector is idempotent.  The NLTK word tokenizer is an
external collaborator; the hypothesis `hrt` states that re-tokenizing the
corrector's own output recovers exactly the corrected token list (true of
whitespace tokenization, since the output is the space-join of those
tokens). -/
theorem c8_corrector_idempotent (word_tokenize : Token → List Token)
    (check : Token → Bool) (seg : Token → List Token) (s : Token)
    (hrt : word_tokenize (correct_summary word_tokenize check seg s) =
      correct_loop check seg (word_tokenize s)) :
    correct_summary word_tokenize check seg
        (correct_summary word_tokenize check seg s) =
      correct_summary word_tokenize check seg s := by
  calc correct_summary word_tokenize check seg
        (correct_summary word_tokenize check seg s)
      = normalizeWS (join_spaces (correct_loop check seg
          (word_tokenize (correct_summary word_tokenize check seg s)))) := rfl
    _ = normalizeWS (join_spaces (correct_loop check seg
          (correct_loop check seg (word_tokenize s)))) := by rw [hrt]
    _ = normalizeWS (join_spaces (correct_loop check seg
          (word_tokenize s))) := by rw [correct_loop_idem]
    _ = correct_summary word_tokenize check seg s := rfl

/-- A concrete whitespace tokenizer for the witnesses: split on spaces and
drop empty fragments. -/
def wsTokenize (t : Token) : List Token :=
  (t.splitOn ' ').filter (fun w => decide (w ≠ []))

/-- C8 witness: correcting `"quickbrown dog"` twice equals correcting it
once, with the whitespace tokenizer and the example oracles. -/
theorem c8_witness :
    wsTokenize (correct_summary wsTokenize exampleCheck exampleSeg
        ("quickbrown dog".toList)) =
      correct_loop exampleCheck exampleSeg
        (wsTokenize ("quickbrown dog".toList)) ∧
    correct_summary wsTokenize exampleCheck exampleSeg
        (correct_summary wsTokenize exampleCheck exampleSeg
          ("quickbrown dog".toList)) =
      correct_summary wsTokenize exampleCheck exampleSeg
        ("quickbrown dog".toList) :=
  ⟨by decide,
    c8_corrector_idempotent wsTokenize exampleCheck exampleSeg
      ("quickbrown dog".toList) (by decide)⟩

/-! ## Fallible-oracle corrector facts -/

/-- A dictionary oracle that fails on the single token `"abcdefg"` and
recognizes every other token. -/
def failingCheck (w : Token) : Except Unit Bool :=
  if w = "abcdefg".toList then Except.error () else Except.ok true

/-- A segmentation oracle that never fails and never splits. -/
def okSeg (w : Token) : Except Unit (List Token) :=
  Except.ok [w]

/-- C7 counterexample: with an oracle that fails on `"abcdefg"`, the
correction pass over `["nice", "abcdefg", "words"]` aborts with the
oracle's error — it does not keep the token and continue (which would give
back the token list unchanged). -/
theorem c7_counterexample :
    correct_loop_fallible failingCheck okSeg
        ["nice".toList, "abcdefg".toList, "words".toList] =
      Except.error () ∧
    (Except.error () : Except Unit (List Token)) ≠
      Except.ok ["nice".toList, "abcdefg".toList, "words".toList] :=
  ⟨rfl, fun h => Except.noConfusion h⟩

/-- C7 (amended): a dictionary-oracle failure on a token is not caught:
once every earlier token has been processed successfully, the failing
token's error propagates and aborts the whole correction pass (and with it
the summarization pipeline). -/
theorem c7_oracle_failure_aborts (check : Token → Except Unit Bool)
    (seg : Token → Except Unit (List Token)) (p : List Token) (w : Token)
    (rest : List Token) (done : List Token) (e : Unit)
    (hp : correct_loop_fallible check seg p = Except.ok done)
    (hw : correct_token_fallible check seg w = Except.error e) :
    correct_loop_fallible check seg (p ++ w :: rest) = Except.error e := by
  induction p generalizing done with
  | nil =>
    rw [List.nil_append]
    simp only [correct_loop_fallible, hw]
  | cons x p ih =>
    rw [List.cons_append]
    simp only [correct_loop_fallible] at hp ⊢
    cases hx : correct_token_fallible check seg x with
    | error e' =>
      simp only [hx] at hp
      exact Except.noConfusion hp
    | ok c =>
      cases hl : correct_loop_fallible check seg p with
      | error e' =>
        simp only [hx, hl] at hp
        exact Except.noConfusion hp
      | ok d =>
        rw [ih d hl]

/-- C7 witness: the amended statement at the concrete run with prefix
`["nice"]`, failing token `"abcdefg"` and suffix `["words"]`. -/
theorem c7_witness :
    correct_loop_fallible failingCheck okSeg ["nice".toList] =
      Except.ok ["nice".toList] ∧
    correct_token_fallible failingCheck okSeg ("abcdefg".toList) =
      Except.error () ∧
    correct_loop_fallible failingCheck okSeg
        (["nice".toList] ++ "abcdefg".toList :: ["words".toList]) =
      Except.error () :=
  ⟨rfl, rfl,
    c7_oracle_failure_aborts failingCheck okSeg ["nice".toList]
      ("abcdefg".toList) ["words".toList] ["nice".toList] () rfl rfl⟩

/-! ## Selector lemmas -/

lemma insertByScoreDesc_perm (x : Token × ℚ) (l : List (Token × ℚ)) :
    (insertByScoreDesc x l).Perm (x :: l) := by
  induction l with
  | nil => exact List.Perm.refl _
  | cons y ys ih =>
    unfold insertByScoreDesc
    split
    · exact List.Perm.refl _
    · exact (ih.cons y).trans (List.Perm.swap x y ys)

lemma sortByScoreDesc_perm (l : List (Token × ℚ)) :
    (sortByScoreDesc l).Perm l := by
  have main : ∀ (l acc : List (Token × ℚ)),
      (l.foldl (fun acc x => insertByScoreDesc x acc) acc).Perm (acc ++ l) := by
    intro l
    induction l with
    | nil => intro acc; simp
    | cons x l ih =>
      intro acc
      rw [List.foldl_cons]
      refine ((ih (insertByScoreDesc x acc)).trans ?_)
      have h1 : (insertByScoreDesc x acc ++ l).Perm ((x :: acc) ++ l) :=
        (insertByScoreDesc_perm x acc).append_right l
      refine h1.trans ?_
      rw [List.cons_append]
      exact List.perm_middle.symm
  have h := main l []
  simpa using h

lemma selected_keys_subset_keys (scores : List (Token × ℚ)) (n : Nat) :
    ∀ s ∈ selected_keys scores n, s ∈ scores.map Prod.fst := by
  intro s hs
  unfold selected_keys at hs
  rcases List.mem_map.mp hs with ⟨p, hp, rfl⟩
  exact List.mem_map.mpr
    ⟨p, (sortByScoreDesc_perm scores).mem_iff.mp (List.take_subset n _ hp), rfl⟩

/-- C1 counterexample: with the scores mapping
`[("b", 1), ("a", 2)]` and `NUM_SENTENCES = 2`, the text handed to the
condensing stage is `"ba"` — the keys in their original insertion order —
whereas score-descending order would give `"ab"`. -/
theorem c1_counterexample :
    select_join [("b".toList, (1 : ℚ)), ("a".toList, (2 : ℚ))] 2 =
        "ba".toList ∧
      (selected_keys [("b".toList, (1 : ℚ)), ("a".toList, (2 : ℚ))] 2).flatten =
        "ab".toList ∧
      select_join [("b".toList, (1 : ℚ)), ("a".toList, (2 : ℚ))] 2 ≠
        (selected_keys [("b".toList, (1 : ℚ)), ("a".toList, (2 : ℚ))] 2).flatten :=
  ⟨by decide, by decide, by decide⟩

/-- C1 (amended): the sentences selected by the Selector (the top
`NUM_SENTENCES` by score under the stable descending sort) are concatenated
in their original insertion order — the order of first occurrence in the
scores mapping — and not in score-descending order. -/
theorem c1_selector_insertion_order (scores : List (Token × ℚ)) (n : Nat) :
    ∃ sel : List Token,
      select_join scores n = sel.flatten ∧
      sel.Sublist (scores.map Prod.fst) ∧
      ∀ s, s ∈ sel ↔ s ∈ selected_keys scores n := by
  refine ⟨(scores.map Prod.fst).filter
    (fun s => decide (s ∈ selected_keys scores n)), rfl,
    List.filter_sublist _, ?_⟩
  intro s
  rw [List.mem_filter, decide_eq_true_eq]
  constructor
  · exact fun h => h.2
  · exact fun h => ⟨selected_keys_subset_keys scores n s h, h⟩

/-! ## State across `summarize()` invocations -/

/-- Trivial external collaborators, for concrete runs. -/
def extEmpty : Externals :=
  { sent_tokenize := fun _ => []
    word_tokenize := fun _ => []
    lower := fun t => t
    abstract := fun _ _ _ => []
    check := fun _ => true
    seg := fun w => [w] }

/-- A freshly constructed summarizer instance: the class constants
(`CHUNK_SIZE = 4096`, `MAX_LENGTH = 80`, `MIN_LENGTH = 30`,
`NUM_SENTENCES = 20`) and empty document text. -/
def initialState : SummarizerState :=
  { chunkSize := 4096
    maxLength := 80
    minLength := 30
    numSentences := 20
    stopWords := []
    chunks := []
    sentences := []
    words := []
    filteredSentences := []
    filteredWords := []
    summary := [] }

/-- C9 counterexample: configuration state produced during the first
`summarize()` invocation is retained into the second one — the first call
sets the instance's `CHUNK_SIZE` to `1024`, so the state the second call
starts from no longer carries the initial `4096`. -/
theorem c9_counterexample :
    (summarizeStep extEmpty initialState).chunkSize = 1024 ∧
      initialState.chunkSize = 4096 ∧
      (summarizeStep extEmpty initialState).chunkSize ≠
        initialState.chunkSize :=
  ⟨rfl, rfl, by decide⟩

/-- C9 (amended): the derived sequences (sentences, words, filtered
sentences, filtered words, summary) are recomputed fresh by each
`summarize()` invocation — the outputs depend only on the chunk list, the
stop-word set, the dictionary oracles and the configuration, never on the
previous invocation's derived state — but the configuration value
`CHUNK_SIZE` is mutated to `1024` and retained, so a second invocation
slices with `1024` rather than the initial `4096`. -/
theorem c9_fresh_but_chunk_size_retained (ext : Externals)
    (st st' : SummarizerState)
    (hcs : st.chunkSize = st'.chunkSize) (hch : st.chunks = st'.chunks)
    (hsw : st.stopWords = st'.stopWords)
    (hns : st.numSentences = st'.numSentences)
    (hmx : st.maxLength = st'.maxLength)
    (hmn : st.minLength = st'.minLength) :
    (summarizeStep ext st).sentences = (summarizeStep ext st').sentences ∧
    (summarizeStep ext st).words = (summarizeStep ext st').words ∧
    (summarizeStep ext st).filteredSentences =
      (summarizeStep ext st').filteredSentences ∧
    (summarizeStep ext st).filteredWords =
      (summarizeStep ext st').filteredWords ∧
    (summarizeStep ext st).summary = (summarizeStep ext st').summary ∧
    (summarizeStep ext st).chunkSize = 1024 ∧
    (summarizeStep ext st').chunkSize = 1024 := by
  unfold summarizeStep
  rw [hcs, hch, hsw, hns, hmx, hmn]
  exact ⟨rfl, rfl, rfl, rfl, rfl, rfl, rfl⟩

/-- A state carrying stale derived data from an earlier invocation but the
same configuration, chunks and stop words as `initialState`. -/
def staleState : SummarizerState :=
  { initialState with
    sentences := ["old".toList]
    words := ["old".toList]
    filteredSentences := ["old".toList]
    filteredWords := ["old".toList]
    summary := "old".toList }

/-- C9 witness: the amended statement at `initialState` versus
`staleState` — stale derived state does not change any output, and both
runs leave `CHUNK_SIZE = 1024` behind. -/
theorem c9_witness :
    (summarizeStep extEmpty initialState).summary =
        (summarizeStep extEmpty staleState).summary ∧
      (summarizeStep extEmpty initialState).chunkSize = 1024 :=
  ⟨(c9_fresh_but_chunk_size_retained extEmpty initialState staleState
      rfl rfl rfl rfl rfl rfl).2.2.2.2.1,
    (c9_fresh_but_chunk_size_retained extEmpty initialState staleState
      rfl rfl rfl rfl rfl rfl).2.2.2.2.2.1⟩
